import Mathlib

/-!
Verification of the pixel-compositing and geometry core of `src/blit.hpp`.

The C++ code is shallowly embedded:
* a pixel (`PixelBase<uint16_t,...>`, instantiated as ARGB1555 `Pixel`) is a
  `ℕ` below `2 ^ 16`; the bit-layout constants are taken verbatim from the
  template instantiation `PixelBase<uint16_t, 1,15, 5,10, 5,5, 5,0>`;
* pixel buffers are `List ℕ`; the in-place row operations become functions
  from the old buffer contents to the new buffer contents;
* the SSE2 paths are embedded lane-by-lane: every intrinsic used
  (`_mm_and_si128`, `_mm_or_si128`, `_mm_andnot_si128`, `_mm_cmpeq_epi16`,
  `_mm_set1_epi16`, `_mm_setzero_si128`) acts independently on the eight
  16-bit lanes of a 128-bit vector, so a vector is modelled as the list of
  its eight lanes;
* C++ `int` values are `ℤ`, with every arithmetic operation that can leave
  the 32-bit range passed through `wrap32` (two's-complement wrap-around);
* `uint32_t`/`uint64_t` casts in `Pos::operator<` are `% 2 ^ 32` on `ℤ`
  followed by `Int.toNat`, and the 64-bit key is built with the source's
  shift-and-or.
-/

namespace Blit

/-! ### Pixel format constants

From the instantiation `PixelBase<std::uint16_t, 1,15, 5,10, 5,5, 5,0>`
(`typedef ... Pixel` in blit.hpp). -/

def alpha_bits : ℕ := 1

def alpha_shift : ℕ := 15

def red_bits : ℕ := 5

def red_shift : ℕ := 10

def green_bits : ℕ := 5

def green_shift : ℕ := 5

def blue_bits : ℕ := 5

def blue_shift : ℕ := 0

/-- `alpha_mask = ((1 << alpha_bits) - 1) << alpha_shift` (blit.hpp:29). -/
def alpha_mask : ℕ := ((1 <<< alpha_bits) - 1) <<< alpha_shift

/-- `rgb_mask` (blit.hpp:30-33): or of the three colour-channel masks. -/
def rgb_mask : ℕ :=
  ((1 <<< red_bits) - 1) <<< red_shift |||
  ((1 <<< green_bits) - 1) <<< green_shift |||
  ((1 <<< blue_bits) - 1) <<< blue_shift

/-! ### Scalar compositing (blit.hpp:67-73, 111-115, 129-132) -/

/-- `PixelBase::set_if_alpha` (blit.hpp:67-73): replace the stored pixel
`self` by `pix` exactly when `pix & alpha_mask` is non-zero. -/
def set_if_alpha (self pix : ℕ) : ℕ :=
  if pix &&& alpha_mask ≠ 0 then pix else self

/-- Scalar `PixelBase::set_line_if_alpha` (blit.hpp:111-115): the loop
`for (x = 0; x < pix; x++) dst[x].set_if_alpha(src[x]);` mapped over the
buffer contents. -/
def set_line_if_alpha (dst src : List ℕ) : List ℕ :=
  List.zipWith (fun d s => set_if_alpha d s) dst src

/-- Scalar `PixelBase::mask_rgb` (blit.hpp:129-132):
`std::transform(dst, dst + size, dst, [](pix){ return pix & rgb_mask; })`. -/
def mask_rgb (dst : List ℕ) : List ℕ :=
  dst.map (fun p => p &&& rgb_mask)

/-! ### SSE2 compositing (blit.hpp:92-109, 119-127)

The vector code touches eight 16-bit lanes at a time; every intrinsic it
uses is lane-wise, so a 128-bit vector is modelled as its list of lanes. -/

/-- `_mm_cmpeq_epi16` on one 16-bit lane: all-ones (`0xFFFF`) when equal,
all-zeroes otherwise. -/
def cmpeq16 (a b : ℕ) : ℕ :=
  if a = b then 65535 else 0

/-- `_mm_andnot_si128` on one 16-bit lane: `(~a) & b` within 16 bits. -/
def andnot16 (a b : ℕ) : ℕ :=
  (a ^^^ 65535) &&& b

/-- One lane of the vector body of `set_line_if_alpha` (blit.hpp:99-104):
`noalpha = cmpeq(src & alpha_mask, 0)`;
`res = (noalpha & dst) | andnot(noalpha, src)`. -/
def simd_lane (d s : ℕ) : ℕ :=
  let noalpha := cmpeq16 (s &&& alpha_mask) 0
  (noalpha &&& d) ||| andnot16 noalpha s

/-- SSE2 `PixelBase::set_line_if_alpha` (blit.hpp:92-109): groups of eight
lanes are processed by `simd_lane` while `x + 8 < pix`; the remainder runs
the scalar `set_if_alpha` loop. -/
def set_line_if_alpha_simd (dst src : List ℕ) : List ℕ :=
  if 8 < dst.length then
    List.zipWith (fun d s => simd_lane d s) (dst.take 8) (src.take 8) ++
      set_line_if_alpha_simd (dst.drop 8) (src.drop 8)
  else
    List.zipWith (fun d s => set_if_alpha d s) dst src
termination_by dst.length
decreasing_by simpa using by omega

/-- SSE2 `PixelBase::mask_rgb` (blit.hpp:119-127): `_mm_and_si128` with the
splatted `rgb_mask` on groups of eight lanes while `x + 8 < size`, then the
scalar `std::transform` on the remainder. -/
def mask_rgb_simd (dst : List ℕ) : List ℕ :=
  if 8 < dst.length then
    (dst.take 8).map (fun p => p &&& rgb_mask) ++ mask_rgb_simd (dst.drop 8)
  else
    dst.map (fun p => p &&& rgb_mask)
termination_by dst.length
decreasing_by simpa using by omega

/-- For 16-bit lane values, the vector predicate/select of one lane agrees
with the scalar `set_if_alpha`. -/
theorem simd_lane_eq_scalar (d s : ℕ) (hd : d < 65536) (hs : s < 65536) :
    simd_lane d s = set_if_alpha d s := by
  have h16 : (65535 : ℕ) = 2 ^ 16 - 1 := by norm_num
  unfold simd_lane cmpeq16 andnot16 set_if_alpha
  by_cases h : s &&& alpha_mask = 0
  · simp only [h, eq_self_iff_true, ite_true, ne_eq, not_true_eq_false, ite_false]
    rw [Nat.xor_self, Nat.zero_and, Nat.or_zero, Nat.and_comm, h16,
      Nat.and_pow_two_sub_one_eq_mod, Nat.mod_eq_of_lt hd]
  · simp only [h, ite_false, ne_eq, not_false_eq_true, ite_true]
    rw [Nat.zero_and, Nat.zero_xor, Nat.zero_or, Nat.and_comm, h16,
      Nat.and_pow_two_sub_one_eq_mod, Nat.mod_eq_of_lt hs]

/-- `zipWith` congruence on the elements actually combined. -/
theorem zipWith_congr_mem (f g : ℕ → ℕ → ℕ) :
    ∀ (l₁ l₂ : List ℕ), (∀ a ∈ l₁, ∀ b ∈ l₂, f a b = g a b) →
      List.zipWith f l₁ l₂ = List.zipWith g l₁ l₂ := by
  intro l₁
  induction l₁ with
  | nil => intro l₂ _; simp
  | cons a l ih =>
    intro l₂ h
    cases l₂ with
    | nil => simp
    | cons b l' =>
      simp only [List.zipWith_cons_cons]
      refine congrArg₂ _ (h a (by simp) b (by simp)) (ih l' ?_)
      intro a' ha' b' hb'
      exact h a' (by simp [ha']) b' (by simp [hb'])

theorem set_line_if_alpha_simd_eq_aux (n : ℕ) :
    ∀ dst src : List ℕ, dst.length ≤ n → dst.length = src.length →
      (∀ p ∈ dst, p < 65536) → (∀ p ∈ src, p < 65536) →
      set_line_if_alpha_simd dst src = set_line_if_alpha dst src := by
  induction n with
  | zero =>
    intro dst src hn hlen _ _
    rw [set_line_if_alpha_simd]
    simp only [if_neg (by omega : ¬ 8 < dst.length)]
    rfl
  | succ n ih =>
    intro dst src hn hlen hd hs
    rw [set_line_if_alpha_simd]
    by_cases h8 : 8 < dst.length
    · simp only [if_pos h8]
      have htk : (dst.take 8).length = (src.take 8).length := by
        simp [hlen]
      have hrec : set_line_if_alpha_simd (dst.drop 8) (src.drop 8) =
          set_line_if_alpha (dst.drop 8) (src.drop 8) := by
        refine ih (dst.drop 8) (src.drop 8) (by simp; omega) (by simp [hlen]) ?_ ?_
        · exact fun p hp => hd p (List.drop_subset 8 dst hp)
        · exact fun p hp => hs p (List.drop_subset 8 src hp)
      have hhd : List.zipWith (fun d s => simd_lane d s) (dst.take 8) (src.take 8) =
          List.zipWith (fun d s => set_if_alpha d s) (dst.take 8) (src.take 8) := by
        refine zipWith_congr_mem _ _ _ _ ?_
        intro a ha b hb
        exact simd_lane_eq_scalar a b (hd a (List.take_subset 8 dst ha))
          (hs b (List.take_subset 8 src hb))
      rw [hhd, hrec]
      show _ = set_line_if_alpha dst src
      conv_rhs => rw [set_line_if_alpha, ← List.take_append_drop 8 dst,
        ← List.take_append_drop 8 src, List.zipWith_append _ _ _ _ _ htk]
      rfl
    · simp only [if_neg h8]
      rfl

theorem mask_rgb_simd_eq_aux (n : ℕ) :
    ∀ dst : List ℕ, dst.length ≤ n → mask_rgb_simd dst = mask_rgb dst := by
  induction n with
  | zero =>
    intro dst hn
    rw [mask_rgb_simd]
    simp only [if_neg (by omega : ¬ 8 < dst.length)]
    rfl
  | succ n ih =>
    intro dst hn
    rw [mask_rgb_simd]
    by_cases h8 : 8 < dst.length
    · simp only [if_pos h8]
      rw [ih (dst.drop 8) (by simp; omega)]
      show _ = mask_rgb dst
      conv_rhs => rw [mask_rgb, ← List.take_append_drop 8 dst, List.map_append]
      rfl
    · simp only [if_neg h8]
      rfl

/-- C2: on buffers of equal length whose elements are 16-bit values, the
SSE2 paths of `set_line_if_alpha` and `mask_rgb` produce exactly the buffers
the scalar paths produce (any length, including `0`, `1`, and lengths that
are not a multiple of the eight-lane group). -/
theorem simd_eq_scalar (dst src : List ℕ) (hlen : dst.length = src.length)
    (hd : ∀ p ∈ dst, p < 65536) (hs : ∀ p ∈ src, p < 65536) :
    set_line_if_alpha_simd dst src = set_line_if_alpha dst src ∧
      mask_rgb_simd dst = mask_rgb dst :=
  ⟨set_line_if_alpha_simd_eq_aux dst.length dst src le_rfl hlen hd hs,
    mask_rgb_simd_eq_aux dst.length dst le_rfl⟩

/-- C2 witness: ten-element buffers (one full vector group plus a two-element
scalar remainder) with mixed alpha bits. -/
theorem simd_eq_scalar_witness :
    set_line_if_alpha_simd [0, 1, 2, 3, 4, 5, 6, 7, 8, 9]
        [32768, 0, 40000, 5, 65535, 123, 0, 32769, 7, 32770] =
      set_line_if_alpha [0, 1, 2, 3, 4, 5, 6, 7, 8, 9]
        [32768, 0, 40000, 5, 65535, 123, 0, 32769, 7, 32770] ∧
      mask_rgb_simd [0, 1, 2, 3, 4, 5, 6, 7, 8, 9] =
        mask_rgb [0, 1, 2, 3, 4, 5, 6, 7, 8, 9] :=
  simd_eq_scalar [0, 1, 2, 3, 4, 5, 6, 7, 8, 9]
    [32768, 0, 40000, 5, 65535, 123, 0, 32769, 7, 32770]
    (by decide) (by decide) (by decide)

/-- C1: after the scalar composite, position `i` holds `src[i]` when the
source alpha bits are set and the original `dst[i]` otherwise. -/
theorem set_line_if_alpha_spec (dst src : List ℕ)
    (hlen : dst.length = src.length) (i : ℕ) (hi : i < dst.length) :
    (set_line_if_alpha dst src).getD i 0 =
      if src.getD i 0 &&& alpha_mask ≠ 0 then src.getD i 0 else dst.getD i 0 := by
  induction dst generalizing src i with
  | nil => simp at hi
  | cons d ds ih =>
    cases src with
    | nil => simp at hlen
    | cons s ss =>
      cases i with
      | zero => simp [set_line_if_alpha, set_if_alpha]
      | succ j =>
        simp only [set_line_if_alpha, List.zipWith_cons_cons, List.getD_cons_succ]
        exact ih ss (by simpa using hlen) j (by simpa using hi)

/-- C1 witness: the general theorem applied to concrete two-element buffers,
one source pixel with alpha set (`0x8001`) and one with alpha clear. -/
theorem set_line_if_alpha_spec_witness :
    ([1, 2].length = ([32769, 6] : List ℕ).length ∧ 0 < ([1, 2] : List ℕ).length) ∧
    (set_line_if_alpha [1, 2] [32769, 6]).getD 0 0 =
      (if ([32769, 6] : List ℕ).getD 0 0 &&& alpha_mask ≠ 0
       then ([32769, 6] : List ℕ).getD 0 0
       else ([1, 2] : List ℕ).getD 0 0) :=
  ⟨⟨by decide, by decide⟩,
    set_line_if_alpha_spec [1, 2] [32769, 6] (by decide) 0 (by decide)⟩

/-- C7: `mask_rgb` is idempotent, and it leaves a buffer unchanged when
every element `p` already satisfies `p = p &&& rgb_mask`. -/
theorem mask_rgb_idem :
    (∀ buf : List ℕ, mask_rgb (mask_rgb buf) = mask_rgb buf) ∧
      (∀ buf : List ℕ, (∀ p ∈ buf, p = p &&& rgb_mask) → mask_rgb buf = buf) := by
  constructor
  · intro buf
    simp only [mask_rgb, List.map_map, Function.comp]
    refine List.map_congr_left ?_
    intro p _
    show p &&& rgb_mask &&& rgb_mask = p &&& rgb_mask
    rw [Nat.and_assoc, Nat.and_self]
  · intro buf h
    have : buf.map (fun p => p &&& rgb_mask) = buf.map (fun p => p) := by
      refine List.map_congr_left ?_
      intro p hp
      exact (h p hp).symm
    rw [mask_rgb, this, List.map_id']

/-- C7 witness: a concrete buffer, and a concrete already-masked buffer
(`1234 = 1234 &&& rgb_mask`) on which the map is the identity. -/
theorem mask_rgb_idem_witness :
    mask_rgb (mask_rgb [70000, 2, 32768]) = mask_rgb [70000, 2, 32768] ∧
      mask_rgb [1234, 0, 32767] = [1234, 0, 32767] :=
  ⟨mask_rgb_idem.1 [70000, 2, 32768],
    mask_rgb_idem.2 [1234, 0, 32767] (by decide)⟩

/-! ### Channel packing `PixelBase::ARGB` (blit.hpp:75-89) -/

/-- `PixelBase::ARGB(a, r, g, b)` (blit.hpp:75-89): each 8-bit channel is
right-shifted down to its configured width, left-shifted to its position and
or-combined; the result passes through the `uint16_t` pixel constructor
(`% 2 ^ 16`). -/
def ARGB (a r g b : ℕ) : ℕ :=
  ((a >>> (8 - alpha_bits)) <<< alpha_shift |||
   (r >>> (8 - red_bits)) <<< red_shift |||
   (g >>> (8 - green_bits)) <<< green_shift |||
   (b >>> (8 - blue_bits)) <<< blue_shift) % 65536

/-- Modelled from the spec: the source defines no per-channel extraction,
only the spec's "extracting each channel back via its mask and shift"; the
per-channel masks follow the source's `alpha_mask`/`rgb_mask` construction
(blit.hpp:29-33). -/
def red_mask : ℕ := ((1 <<< red_bits) - 1) <<< red_shift

/-- Modelled from the spec: green-channel mask, as for `red_mask`. -/
def green_mask : ℕ := ((1 <<< green_bits) - 1) <<< green_shift

/-- Modelled from the spec: blue-channel mask, as for `red_mask`. -/
def blue_mask : ℕ := ((1 <<< blue_bits) - 1) <<< blue_shift

/-- Modelled from the spec: extract the alpha channel by mask and shift. -/
def extract_alpha (p : ℕ) : ℕ := (p &&& alpha_mask) >>> alpha_shift

/-- Modelled from the spec: extract the red channel by mask and shift. -/
def extract_red (p : ℕ) : ℕ := (p &&& red_mask) >>> red_shift

/-- Modelled from the spec: extract the green channel by mask and shift. -/
def extract_green (p : ℕ) : ℕ := (p &&& green_mask) >>> green_shift

/-- Modelled from the spec: extract the blue channel by mask and shift. -/
def extract_blue (p : ℕ) : ℕ := (p &&& blue_mask) >>> blue_shift

/-- A left-shift or-ed with a small value is the corresponding
multiply-add: `lo < 2 ^ s → hi <<< s ||| lo = 2 ^ s * hi + lo`. -/
theorem shiftLeft_or_eq_add (hi lo s : ℕ) (h : lo < 2 ^ s) :
    hi <<< s ||| lo = 2 ^ s * hi + lo := by
  apply Nat.eq_of_testBit_eq
  intro j
  rw [Nat.testBit_mul_pow_two_add hi h j]
  simp only [Nat.testBit_or, Nat.testBit_shiftLeft]
  rcases Nat.lt_or_ge j s with hj | hj
  · simp [hj, Nat.not_le.mpr hj]
  · have hlo : lo < 2 ^ j := lt_of_lt_of_le h (Nat.pow_le_pow_right (by norm_num) hj)
    simp [hj, Nat.not_lt.mpr hj, Nat.testBit_lt_two_pow hlo]

/-- Masking with a `w`-bit field at offset `s` and shifting down is the
`div`/`mod` bit-field read. -/
theorem mask_shift_extract (p s w : ℕ) :
    (p &&& (2 ^ w - 1) <<< s) >>> s = p / 2 ^ s % 2 ^ w := by
  rw [← Nat.shiftRight_eq_div_pow]
  apply Nat.eq_of_testBit_eq
  intro j
  simp only [Nat.testBit_shiftRight, Nat.testBit_and, Nat.testBit_shiftLeft,
    Nat.testBit_two_pow_sub_one, Nat.testBit_mod_two_pow]
  have h1 : s ≤ s + j := Nat.le_add_right s j
  have h2 : s + j - s = j := by omega
  simp [h1, h2, Bool.and_comm]

theorem argb_eq_add (a r g b : ℕ) (ha : a < 2) (hr : r < 32) (hg : g < 32)
    (hb : b < 32) :
    a <<< 15 ||| r <<< 10 ||| g <<< 5 ||| b <<< 0 =
      32768 * a + 1024 * r + 32 * g + b := by
  have h5 : (2 : ℕ) ^ 5 = 32 := by norm_num
  have h10 : (2 : ℕ) ^ 10 = 1024 := by norm_num
  have h15 : (2 : ℕ) ^ 15 = 32768 := by norm_num
  rw [Nat.shiftLeft_zero, Nat.or_assoc, Nat.or_assoc,
    shiftLeft_or_eq_add g b 5 (by omega),
    shiftLeft_or_eq_add r (2 ^ 5 * g + b) 10 (by rw [h5]; omega),
    shiftLeft_or_eq_add a (2 ^ 10 * r + (2 ^ 5 * g + b)) 15 (by rw [h5, h10]; omega),
    h5, h10, h15]
  ring

/-- The packed ARGB1555 value of 8-bit channels, in arithmetic form. -/
theorem ARGB_eq_add (a r g b : ℕ) (ha : a < 256) (hr : r < 256) (hg : g < 256)
    (hb : b < 256) :
    ARGB a r g b =
      32768 * (a >>> 7) + 1024 * (r >>> 3) + 32 * (g >>> 3) + (b >>> 3) := by
  have ha7 : a >>> 7 < 2 := by rw [Nat.shiftRight_eq_div_pow]; norm_num; omega
  have hr3 : r >>> 3 < 32 := by rw [Nat.shiftRight_eq_div_pow]; norm_num; omega
  have hg3 : g >>> 3 < 32 := by rw [Nat.shiftRight_eq_div_pow]; norm_num; omega
  have hb3 : b >>> 3 < 32 := by rw [Nat.shiftRight_eq_div_pow]; norm_num; omega
  have hc : (8 - alpha_bits = 7 ∧ 8 - red_bits = 3) ∧ 8 - green_bits = 3 ∧
      8 - blue_bits = 3 := by
    refine ⟨⟨?_, ?_⟩, ?_, ?_⟩ <;> norm_num [alpha_bits, red_bits, green_bits, blue_bits]
  rw [ARGB, hc.1.1, hc.1.2, hc.2.1, hc.2.2]
  show ((a >>> 7) <<< alpha_shift ||| (r >>> 3) <<< red_shift |||
    (g >>> 3) <<< green_shift ||| (b >>> 3) <<< blue_shift) % 65536 = _
  rw [show alpha_shift = 15 from rfl, show red_shift = 10 from rfl,
    show green_shift = 5 from rfl, show blue_shift = 0 from rfl,
    argb_eq_add _ _ _ _ ha7 hr3 hg3 hb3]
  omega

/-- C4: packing 8-bit channels with `ARGB` and reading each channel back via
its mask and shift returns the input right-shifted by `8 - width`, i.e.
truncated to the channel's configured bit-width. -/
theorem ARGB_roundtrip (a r g b : ℕ) (ha : a < 256) (hr : r < 256)
    (hg : g < 256) (hb : b < 256) :
    extract_alpha (ARGB a r g b) = a >>> (8 - alpha_bits) ∧
      extract_red (ARGB a r g b) = r >>> (8 - red_bits) ∧
      extract_green (ARGB a r g b) = g >>> (8 - green_bits) ∧
      extract_blue (ARGB a r g b) = b >>> (8 - blue_bits) := by
  have ha7 : a >>> 7 < 2 := by rw [Nat.shiftRight_eq_div_pow]; norm_num; omega
  have hr3 : r >>> 3 < 32 := by rw [Nat.shiftRight_eq_div_pow]; norm_num; omega
  have hg3 : g >>> 3 < 32 := by rw [Nat.shiftRight_eq_div_pow]; norm_num; omega
  have hb3 : b >>> 3 < 32 := by rw [Nat.shiftRight_eq_div_pow]; norm_num; omega
  have hP := ARGB_eq_add a r g b ha hr hg hb
  have hma : alpha_mask = (2 ^ 1 - 1) <<< 15 := by decide
  have hmr : red_mask = (2 ^ 5 - 1) <<< 10 := by decide
  have hmg : green_mask = (2 ^ 5 - 1) <<< 5 := by decide
  have hmb : blue_mask = (2 ^ 5 - 1) <<< 0 := by decide
  have hc : (8 - alpha_bits = 7 ∧ 8 - red_bits = 3) ∧ 8 - green_bits = 3 ∧
      8 - blue_bits = 3 := by
    refine ⟨⟨?_, ?_⟩, ?_, ?_⟩ <;> norm_num [alpha_bits, red_bits, green_bits, blue_bits]
  refine ⟨?_, ?_, ?_, ?_⟩
  · rw [extract_alpha, hc.1.1, hma, show alpha_shift = 15 from rfl,
      mask_shift_extract, hP]
    norm_num
    omega
  · rw [extract_red, hc.1.2, hmr, show red_shift = 10 from rfl,
      mask_shift_extract, hP]
    norm_num
    omega
  · rw [extract_green, hc.2.1, hmg, show green_shift = 5 from rfl,
      mask_shift_extract, hP]
    norm_num
    omega
  · rw [extract_blue, hc.2.2, hmb, show blue_shift = 0 from rfl,
      mask_shift_extract, hP]
    norm_num
    omega

/-- C4 witness: the roundtrip at `(a, r, g, b) = (255, 255, 128, 7)`; in
particular red `0xFF` stores and extracts as `0x1F`. -/
theorem ARGB_roundtrip_witness :
    ((255 : ℕ) < 256 ∧ (128 : ℕ) < 256 ∧ (7 : ℕ) < 256) ∧
      (extract_alpha (ARGB 255 255 128 7) = 255 >>> (8 - alpha_bits) ∧
        extract_red (ARGB 255 255 128 7) = 255 >>> (8 - red_bits) ∧
        extract_green (ARGB 255 255 128 7) = 128 >>> (8 - green_bits) ∧
        extract_blue (ARGB 255 255 128 7) = 7 >>> (8 - blue_bits)) :=
  ⟨⟨by decide, by decide, by decide⟩,
    ARGB_roundtrip 255 255 128 7 (by decide) (by decide) (by decide) (by decide)⟩

/-! ### `Pos` and its ordering (blit.hpp:147-179) -/

/-- `Blit::Pos`: a pair of C++ `int` coordinates, embedded as `ℤ`. -/
structure Pos where
  x : ℤ
  y : ℤ
  deriving DecidableEq

/-- The value range of a 32-bit C++ `int`. -/
def int32 (z : ℤ) : Prop := -2147483648 ≤ z ∧ z < 2147483648

instance (z : ℤ) : Decidable (int32 z) := by
  unfold int32; infer_instance

/-- `static_cast<std::uint32_t>` of an `int`: reduction mod `2 ^ 32`. -/
def toU32 (z : ℤ) : ℕ := (z % 4294967296).toNat

/-- The 64-bit comparison key of `Pos::operator<` (blit.hpp:164-176):
`uint64_t self = uint32(x); self <<= 32; self |= uint32(y);`. -/
def posKey (p : Pos) : ℕ :=
  toU32 p.x <<< 32 ||| toU32 p.y

/-- `Pos::operator<`: comparison of the packed 64-bit keys. -/
def Pos.lt (p q : Pos) : Prop := posKey p < posKey q

instance (p q : Pos) : Decidable (Pos.lt p q) := by
  unfold Pos.lt; infer_instance

theorem toU32_lt (z : ℤ) : toU32 z < 4294967296 := by
  unfold toU32; omega

/-- The packed key in arithmetic form. -/
theorem posKey_eq (p : Pos) : posKey p = 4294967296 * toU32 p.x + toU32 p.y := by
  have h := shiftLeft_or_eq_add (toU32 p.x) (toU32 p.y) 32 (by
    have := toU32_lt p.y
    norm_num
    omega)
  rw [posKey, h]
  norm_num

/-- C8: `Pos.lt` is irreflexive and transitive; on coordinates in `int`
range it satisfies trichotomy (distinct points compare in exactly one
direction); and `Pos(1,5) < Pos(2,1)`. -/
theorem pos_lt_strict_total_order :
    (∀ p : Pos, ¬ Pos.lt p p) ∧
      (∀ p q r : Pos, Pos.lt p q → Pos.lt q r → Pos.lt p r) ∧
      (∀ p q : Pos, int32 p.x → int32 p.y → int32 q.x → int32 q.y → p ≠ q →
        (Pos.lt p q ∨ Pos.lt q p) ∧ ¬ (Pos.lt p q ∧ Pos.lt q p)) ∧
      Pos.lt ⟨1, 5⟩ ⟨2, 1⟩ := by
  refine ⟨?_, ?_, ?_, ?_⟩
  · intro p
    simp [Pos.lt]
  · intro p q r hpq hqr
    exact lt_trans hpq hqr
  · intro p q hpx hpy hqx hqy hne
    have hkey : posKey p ≠ posKey q := by
      intro hk
      apply hne
      rw [posKey_eq, posKey_eq] at hk
      have h1 := toU32_lt p.y
      have h2 := toU32_lt q.y
      have hx : toU32 p.x = toU32 q.x := by omega
      have hy : toU32 p.y = toU32 q.y := by omega
      unfold toU32 at hx hy
      unfold int32 at hpx hpy hqx hqy
      have : p.x = q.x := by omega
      have : p.y = q.y := by omega
      cases p; cases q
      simp_all
    unfold Pos.lt
    omega
  · decide

/-- C8 witness: trichotomy instantiated at the distinct in-range points
`(3, 4)` and `(3, 9)`. -/
theorem pos_lt_strict_total_order_witness :
    (Pos.lt ⟨3, 4⟩ ⟨3, 9⟩ ∨ Pos.lt ⟨3, 9⟩ ⟨3, 4⟩) ∧
      ¬ (Pos.lt ⟨3, 4⟩ ⟨3, 9⟩ ∧ Pos.lt ⟨3, 9⟩ ⟨3, 4⟩) :=
  pos_lt_strict_total_order.2.2.1 ⟨3, 4⟩ ⟨3, 9⟩
    (by decide) (by decide) (by decide) (by decide) (by decide)

/-- The lexicographic order on signed coordinates, for comparison with the
order the code actually implements. -/
def lexLt (p q : Pos) : Prop :=
  p.x < q.x ∨ (p.x = q.x ∧ p.y < q.y)

instance (p q : Pos) : Decidable (lexLt p q) := by
  unfold lexLt; infer_instance

/-- C9: the unsigned reinterpretation makes every point with negative `x`
compare greater than every point with non-negative `x`; concretely
`Pos(1,0) < Pos(-1,0)` and not the reverse, while the signed lexicographic
order says the opposite, so the two orders differ. -/
theorem pos_lt_negative_x_greater :
    (∀ p q : Pos, int32 p.x → int32 q.x → p.x < 0 → 0 ≤ q.x →
      Pos.lt q p ∧ ¬ Pos.lt p q) ∧
      (Pos.lt ⟨1, 0⟩ ⟨-1, 0⟩ ∧ ¬ Pos.lt ⟨-1, 0⟩ ⟨1, 0⟩) ∧
      (lexLt ⟨-1, 0⟩ ⟨1, 0⟩ ∧ ¬ lexLt ⟨1, 0⟩ ⟨-1, 0⟩) := by
  refine ⟨?_, by decide, by decide⟩
  intro p q hpx hqx hneg hnn
  have h1 := toU32_lt p.y
  have h2 := toU32_lt q.y
  have hp : 2147483648 ≤ toU32 p.x := by
    unfold toU32 int32 at *
    omega
  have hq : toU32 q.x < 2147483648 := by
    unfold toU32 int32 at *
    omega
  unfold Pos.lt
  rw [posKey_eq, posKey_eq]
  constructor
  · omega
  · omega

/-- C9 witness: the universal part instantiated at `p = (-7, 2)` and
`q = (5, 100)`. -/
theorem pos_lt_negative_x_greater_witness :
    Pos.lt ⟨5, 100⟩ ⟨-7, 2⟩ ∧ ¬ Pos.lt ⟨-7, 2⟩ ⟨5, 100⟩ :=
  pos_lt_negative_x_greater.1 ⟨-7, 2⟩ ⟨5, 100⟩
    (by decide) (by decide) (by decide) (by decide)

/-! ### `Rect` and its intersection (blit.hpp:197-235)

All `int` arithmetic inside `Rect::operator&` goes through `wrap32`, the
two's-complement wrap-around of 32-bit `int`; `std::max`/`std::min` of
already-represented `int` values need no wrapping. -/

/-- Two's-complement wrap-around of a 32-bit signed `int`. -/
def wrap32 (z : ℤ) : ℤ := (z + 2147483648) % 4294967296 - 2147483648

/-- `Blit::Rect`: origin `pos` plus `int` width and height. -/
structure Rect where
  pos : Pos
  w : ℤ
  h : ℤ
  deriving DecidableEq

/-- `Rect::operator&` (blit.hpp:209-223). -/
def Rect.and (a b : Rect) : Rect :=
  let x_left := max a.pos.x b.pos.x
  let x_right := min (wrap32 (a.pos.x + a.w)) (wrap32 (b.pos.x + b.w))
  let width := wrap32 (x_right - x_left)
  let y_top := max a.pos.y b.pos.y
  let y_bottom := min (wrap32 (a.pos.y + a.h)) (wrap32 (b.pos.y + b.h))
  let height := wrap32 (y_bottom - y_top)
  if width ≤ 0 ∨ height ≤ 0 then ⟨⟨0, 0⟩, 0, 0⟩
  else ⟨⟨x_left, y_top⟩, width, height⟩

/-- `Rect::operator bool` (blit.hpp:231): `w > 0 && h > 0`. -/
def Rect.nonempty (r : Rect) : Prop := 0 < r.w ∧ 0 < r.h

instance (r : Rect) : Decidable r.nonempty := by
  unfold Rect.nonempty; infer_instance

/-- All four fields of a `Rect` are representable as 32-bit `int`. -/
def Rect.wf (r : Rect) : Prop :=
  int32 r.pos.x ∧ int32 r.pos.y ∧ int32 r.w ∧ int32 r.h

instance (r : Rect) : Decidable r.wf := by
  unfold Rect.wf; infer_instance

theorem wrap32_eq_self (z : ℤ) (h1 : -2147483648 ≤ z) (h2 : z < 2147483648) :
    wrap32 z = z := by
  unfold wrap32
  omega

/-- Shared workhorse: with representable fields and edge sums and
non-underflowing differences, `Rect::operator&` computes the exact
max/min formula. -/
theorem rect_and_eq (A B : Rect) (hA : A.wf) (hB : B.wf)
    (hax : int32 (A.pos.x + A.w)) (hay : int32 (A.pos.y + A.h))
    (hbx : int32 (B.pos.x + B.w)) (hby : int32 (B.pos.y + B.h))
    (hdx : -2147483648 ≤ min (A.pos.x + A.w) (B.pos.x + B.w) - max A.pos.x B.pos.x)
    (hdy : -2147483648 ≤ min (A.pos.y + A.h) (B.pos.y + B.h) - max A.pos.y B.pos.y) :
    Rect.and A B =
      if min (A.pos.x + A.w) (B.pos.x + B.w) - max A.pos.x B.pos.x ≤ 0 ∨
          min (A.pos.y + A.h) (B.pos.y + B.h) - max A.pos.y B.pos.y ≤ 0 then
        ⟨⟨0, 0⟩, 0, 0⟩
      else
        ⟨⟨max A.pos.x B.pos.x, max A.pos.y B.pos.y⟩,
          min (A.pos.x + A.w) (B.pos.x + B.w) - max A.pos.x B.pos.x,
          min (A.pos.y + A.h) (B.pos.y + B.h) - max A.pos.y B.pos.y⟩ := by
  obtain ⟨⟨ax, ay⟩, aw, ah⟩ := A
  obtain ⟨⟨bx, by'⟩, bw, bh⟩ := B
  simp only [Rect.wf, int32] at hA hB
  simp only [int32] at hax hay hbx hby
  dsimp only at hdx hdy ⊢
  obtain ⟨⟨hax1, hax2⟩, ⟨hay1, hay2⟩, ⟨haw1, haw2⟩, hah1, hah2⟩ := hA
  obtain ⟨⟨hbx1, hbx2⟩, ⟨hby1, hby2⟩, ⟨hbw1, hbw2⟩, hbh1, hbh2⟩ := hB
  obtain ⟨hax3, hax4⟩ := hax
  obtain ⟨hay3, hay4⟩ := hay
  obtain ⟨hbx3, hbx4⟩ := hbx
  obtain ⟨hby3, hby4⟩ := hby
  have e1 : wrap32 (ax + aw) = ax + aw := wrap32_eq_self _ hax3 hax4
  have e2 : wrap32 (bx + bw) = bx + bw := wrap32_eq_self _ hbx3 hbx4
  have e3 : wrap32 (ay + ah) = ay + ah := wrap32_eq_self _ hay3 hay4
  have e4 : wrap32 (by' + bh) = by' + bh := wrap32_eq_self _ hby3 hby4
  simp only [Rect.and, e1, e2, e3, e4]
  have e5 : wrap32 (min (ax + aw) (bx + bw) - max ax bx) =
      min (ax + aw) (bx + bw) - max ax bx :=
    wrap32_eq_self _ hdx (by omega)
  have e6 : wrap32 (min (ay + ah) (by' + bh) - max ay by') =
      min (ay + ah) (by' + bh) - max ay by' :=
    wrap32_eq_self _ hdy (by omega)
  rw [e5, e6]

/-- C3 counterexample: for `A = {(2147483647,0),0,1}` and
`B = {(-2147483648,0),0,1}` every edge sum is representable (the claim's
hypothesis holds) and `right - left ≤ 0`, so the claim demands the canonical
empty rectangle; but the 32-bit subtraction `x_right - x_left` wraps around
and the code returns the non-empty `{(2147483647,0),1,1}`. -/
theorem rect_and_counterexample :
    (int32 ((2147483647 : ℤ) + 0) ∧ int32 ((0 : ℤ) + 1) ∧
      int32 ((-2147483648 : ℤ) + 0) ∧ int32 ((0 : ℤ) + 1)) ∧
      min ((2147483647 : ℤ) + 0) ((-2147483648 : ℤ) + 0) -
        max (2147483647 : ℤ) (-2147483648 : ℤ) ≤ 0 ∧
      Rect.and ⟨⟨2147483647, 0⟩, 0, 1⟩ ⟨⟨-2147483648, 0⟩, 0, 1⟩ =
        ⟨⟨2147483647, 0⟩, 1, 1⟩ ∧
      Rect.and ⟨⟨2147483647, 0⟩, 0, 1⟩ ⟨⟨-2147483648, 0⟩, 0, 1⟩ ≠
        ⟨⟨0, 0⟩, 0, 0⟩ := by
  refine ⟨by decide, by decide, by decide, by decide⟩

/-- C3 (amended): when additionally the two differences `right - left` and
`bottom - top` do not underflow 32-bit `int`, the intersection is exactly
the claimed max/min formula with canonical-empty collapsing. -/
theorem rect_and_formula (A B : Rect) (hA : A.wf) (hB : B.wf)
    (hax : int32 (A.pos.x + A.w)) (hay : int32 (A.pos.y + A.h))
    (hbx : int32 (B.pos.x + B.w)) (hby : int32 (B.pos.y + B.h))
    (hdx : -2147483648 ≤ min (A.pos.x + A.w) (B.pos.x + B.w) - max A.pos.x B.pos.x)
    (hdy : -2147483648 ≤ min (A.pos.y + A.h) (B.pos.y + B.h) - max A.pos.y B.pos.y) :
    Rect.and A B =
      if min (A.pos.x + A.w) (B.pos.x + B.w) - max A.pos.x B.pos.x ≤ 0 ∨
          min (A.pos.y + A.h) (B.pos.y + B.h) - max A.pos.y B.pos.y ≤ 0 then
        ⟨⟨0, 0⟩, 0, 0⟩
      else
        ⟨⟨max A.pos.x B.pos.x, max A.pos.y B.pos.y⟩,
          min (A.pos.x + A.w) (B.pos.x + B.w) - max A.pos.x B.pos.x,
          min (A.pos.y + A.h) (B.pos.y + B.h) - max A.pos.y B.pos.y⟩ :=
  rect_and_eq A B hA hB hax hay hbx hby hdx hdy

/-- C3 witness: the amended formula at `A = {(0,0),10,10}`,
`B = {(5,5),10,10}`, which intersect in `{(5,5),5,5}`. -/
theorem rect_and_formula_witness :
    Rect.and ⟨⟨0, 0⟩, 10, 10⟩ ⟨⟨5, 5⟩, 10, 10⟩ =
      if min ((0 : ℤ) + 10) ((5 : ℤ) + 10) - max (0 : ℤ) 5 ≤ 0 ∨
          min ((0 : ℤ) + 10) ((5 : ℤ) + 10) - max (0 : ℤ) 5 ≤ 0 then
        ⟨⟨0, 0⟩, 0, 0⟩
      else
        ⟨⟨max (0 : ℤ) 5, max (0 : ℤ) 5⟩,
          min ((0 : ℤ) + 10) ((5 : ℤ) + 10) - max (0 : ℤ) 5,
          min ((0 : ℤ) + 10) ((5 : ℤ) + 10) - max (0 : ℤ) 5⟩ :=
  rect_and_formula ⟨⟨0, 0⟩, 10, 10⟩ ⟨⟨5, 5⟩, 10, 10⟩
    (by decide) (by decide) (by decide) (by decide) (by decide) (by decide)
    (by decide) (by decide)

/-- C5: under the claim's hypotheses (all edge sums representable), the
rectangle returned by `operator&` never has negative width or height. -/
theorem rect_and_nonneg (A B : Rect)
    (hax : int32 (A.pos.x + A.w)) (hay : int32 (A.pos.y + A.h))
    (hbx : int32 (B.pos.x + B.w)) (hby : int32 (B.pos.y + B.h)) :
    0 ≤ (Rect.and A B).w ∧ 0 ≤ (Rect.and A B).h := by
  simp only [Rect.and]
  split
  · simp
  · rename_i hcond
    simp only [not_or, not_le] at hcond
    exact ⟨le_of_lt hcond.1, le_of_lt hcond.2⟩

/-- C5 witness: disjoint rectangles (result is the empty rectangle, with
width and height `0 ≥ 0`). -/
theorem rect_and_nonneg_witness :
    0 ≤ (Rect.and ⟨⟨0, 0⟩, 4, 4⟩ ⟨⟨10, 10⟩, 4, 4⟩).w ∧
      0 ≤ (Rect.and ⟨⟨0, 0⟩, 4, 4⟩ ⟨⟨10, 10⟩, 4, 4⟩).h :=
  rect_and_nonneg ⟨⟨0, 0⟩, 4, 4⟩ ⟨⟨10, 10⟩, 4, 4⟩
    (by decide) (by decide) (by decide) (by decide)

/-- C6 counterexample: `A & A ≠ A` for the empty-but-not-canonical rectangle
`A = {(5,5),0,0}` (the code canonicalises it to `{(0,0),0,0}`); and for
`A = {(2147483647,2147483647),1,1}`, whose edge sums overflow, `A & empty`
wraps around and returns `A` itself rather than the canonical empty
rectangle. -/
theorem rect_and_idem_counterexample :
    Rect.and ⟨⟨5, 5⟩, 0, 0⟩ ⟨⟨5, 5⟩, 0, 0⟩ ≠ ⟨⟨5, 5⟩, 0, 0⟩ ∧
      Rect.and ⟨⟨2147483647, 2147483647⟩, 1, 1⟩ ⟨⟨0, 0⟩, 0, 0⟩ ≠
        ⟨⟨0, 0⟩, 0, 0⟩ := by
  refine ⟨by decide, by decide⟩

/-- C6 (amended): for rectangles with representable fields and edge sums,
`A & A = A` holds whenever `A` is non-empty (`w > 0` and `h > 0`) or `A` is
the canonical empty rectangle; and `A & empty = empty = empty & A`. -/
theorem rect_and_idem :
    (∀ A : Rect, A.wf → int32 (A.pos.x + A.w) → int32 (A.pos.y + A.h) →
      (0 < A.w ∧ 0 < A.h) ∨ A = ⟨⟨0, 0⟩, 0, 0⟩ → Rect.and A A = A) ∧
      (∀ A : Rect, A.wf → int32 (A.pos.x + A.w) → int32 (A.pos.y + A.h) →
        Rect.and A ⟨⟨0, 0⟩, 0, 0⟩ = ⟨⟨0, 0⟩, 0, 0⟩ ∧
          Rect.and ⟨⟨0, 0⟩, 0, 0⟩ A = ⟨⟨0, 0⟩, 0, 0⟩) := by
  constructor
  · intro A hA hax hay hcase
    obtain ⟨⟨ax, ay⟩, aw, ah⟩ := A
    obtain ⟨hax1, hay1, haw, hah⟩ := hA
    simp only [Rect.wf, int32, wrap32, Rect.mk.injEq, Pos.mk.injEq] at *
    rcases hcase with h | h
    · simp only [Rect.and, wrap32]
      rw [if_neg]
      · simp only [Rect.mk.injEq, Pos.mk.injEq]
        omega
      · omega
    · obtain ⟨⟨h1, h2⟩, h3, h4⟩ := h
      subst h1; subst h2; subst h3; subst h4
      simp only [Rect.and, wrap32]
      rw [if_pos]
      omega
  · intro A hA hax hay
    obtain ⟨⟨ax, ay⟩, aw, ah⟩ := A
    obtain ⟨hax1, hay1, haw, hah⟩ := hA
    simp only [Rect.wf, int32] at *
    constructor
    · simp only [Rect.and, wrap32]
      rw [if_pos]
      omega
    · simp only [Rect.and, wrap32]
      rw [if_pos]
      omega

/-- C6 witness: idempotence at the non-empty `{(2,3),4,5}` and absorption by
the canonical empty rectangle at the same input. -/
theorem rect_and_idem_witness :
    Rect.and ⟨⟨2, 3⟩, 4, 5⟩ ⟨⟨2, 3⟩, 4, 5⟩ = ⟨⟨2, 3⟩, 4, 5⟩ ∧
      Rect.and ⟨⟨2, 3⟩, 4, 5⟩ ⟨⟨0, 0⟩, 0, 0⟩ = ⟨⟨0, 0⟩, 0, 0⟩ ∧
        Rect.and ⟨⟨0, 0⟩, 0, 0⟩ ⟨⟨2, 3⟩, 4, 5⟩ = ⟨⟨0, 0⟩, 0, 0⟩ :=
  ⟨rect_and_idem.1 ⟨⟨2, 3⟩, 4, 5⟩ (by decide) (by decide) (by decide)
      (Or.inl (by decide)),
    rect_and_idem.2 ⟨⟨2, 3⟩, 4, 5⟩ (by decide) (by decide) (by decide)⟩

/-- C10 counterexample: with `A = {(2147483647,0),0,1}` and
`B = {(-2147483648,0),0,1}` the claim's hypotheses hold and the result is
non-empty, but the result sticks out of `A` on the right
(`r.x + r.w = 2147483648 > A.x + A.w = 2147483647`). -/
theorem rect_and_subset_counterexample :
    (int32 ((2147483647 : ℤ) + 0) ∧ int32 ((0 : ℤ) + 1) ∧
      int32 ((-2147483648 : ℤ) + 0) ∧ int32 ((0 : ℤ) + 1)) ∧
      (Rect.and ⟨⟨2147483647, 0⟩, 0, 1⟩ ⟨⟨-2147483648, 0⟩, 0, 1⟩).nonempty ∧
      ¬ ((Rect.and ⟨⟨2147483647, 0⟩, 0, 1⟩ ⟨⟨-2147483648, 0⟩, 0, 1⟩).pos.x +
          (Rect.and ⟨⟨2147483647, 0⟩, 0, 1⟩ ⟨⟨-2147483648, 0⟩, 0, 1⟩).w ≤
            (2147483647 : ℤ) + 0) := by
  refine ⟨by decide, by decide, by decide⟩

/-- C10 (amended): when additionally the two differences `right - left` and
`bottom - top` do not underflow 32-bit `int`, a non-empty intersection is
contained in both arguments. -/
theorem rect_and_subset (A B : Rect) (hA : A.wf) (hB : B.wf)
    (hax : int32 (A.pos.x + A.w)) (hay : int32 (A.pos.y + A.h))
    (hbx : int32 (B.pos.x + B.w)) (hby : int32 (B.pos.y + B.h))
    (hdx : -2147483648 ≤ min (A.pos.x + A.w) (B.pos.x + B.w) - max A.pos.x B.pos.x)
    (hdy : -2147483648 ≤ min (A.pos.y + A.h) (B.pos.y + B.h) - max A.pos.y B.pos.y)
    (hne : (Rect.and A B).nonempty) :
    (A.pos.x ≤ (Rect.and A B).pos.x ∧
      (Rect.and A B).pos.x + (Rect.and A B).w ≤ A.pos.x + A.w ∧
      A.pos.y ≤ (Rect.and A B).pos.y ∧
      (Rect.and A B).pos.y + (Rect.and A B).h ≤ A.pos.y + A.h) ∧
      (B.pos.x ≤ (Rect.and A B).pos.x ∧
        (Rect.and A B).pos.x + (Rect.and A B).w ≤ B.pos.x + B.w ∧
        B.pos.y ≤ (Rect.and A B).pos.y ∧
        (Rect.and A B).pos.y + (Rect.and A B).h ≤ B.pos.y + B.h) := by
  rw [rect_and_eq A B hA hB hax hay hbx hby hdx hdy] at hne ⊢
  by_cases hcond : min (A.pos.x + A.w) (B.pos.x + B.w) - max A.pos.x B.pos.x ≤ 0 ∨
      min (A.pos.y + A.h) (B.pos.y + B.h) - max A.pos.y B.pos.y ≤ 0
  · rw [if_pos hcond] at hne
    exact absurd hne (by decide)
  · rw [if_neg hcond] at hne ⊢
    dsimp only
    simp only [int32] at hax hay hbx hby
    omega

/-- C10 witness: the amended containment at `A = {(0,0),10,10}`,
`B = {(5,5),10,10}`. -/
theorem rect_and_subset_witness :
    ((0 : ℤ) ≤ (Rect.and ⟨⟨0, 0⟩, 10, 10⟩ ⟨⟨5, 5⟩, 10, 10⟩).pos.x ∧
      (Rect.and ⟨⟨0, 0⟩, 10, 10⟩ ⟨⟨5, 5⟩, 10, 10⟩).pos.x +
        (Rect.and ⟨⟨0, 0⟩, 10, 10⟩ ⟨⟨5, 5⟩, 10, 10⟩).w ≤ (0 : ℤ) + 10 ∧
      (0 : ℤ) ≤ (Rect.and ⟨⟨0, 0⟩, 10, 10⟩ ⟨⟨5, 5⟩, 10, 10⟩).pos.y ∧
      (Rect.and ⟨⟨0, 0⟩, 10, 10⟩ ⟨⟨5, 5⟩, 10, 10⟩).pos.y +
        (Rect.and ⟨⟨0, 0⟩, 10, 10⟩ ⟨⟨5, 5⟩, 10, 10⟩).h ≤ (0 : ℤ) + 10) ∧
      ((5 : ℤ) ≤ (Rect.and ⟨⟨0, 0⟩, 10, 10⟩ ⟨⟨5, 5⟩, 10, 10⟩).pos.x ∧
        (Rect.and ⟨⟨0, 0⟩, 10, 10⟩ ⟨⟨5, 5⟩, 10, 10⟩).pos.x +
          (Rect.and ⟨⟨0, 0⟩, 10, 10⟩ ⟨⟨5, 5⟩, 10, 10⟩).w ≤ (5 : ℤ) + 10 ∧
        (5 : ℤ) ≤ (Rect.and ⟨⟨0, 0⟩, 10, 10⟩ ⟨⟨5, 5⟩, 10, 10⟩).pos.y ∧
        (Rect.and ⟨⟨0, 0⟩, 10, 10⟩ ⟨⟨5, 5⟩, 10, 10⟩).pos.y +
          (Rect.and ⟨⟨0, 0⟩, 10, 10⟩ ⟨⟨5, 5⟩, 10, 10⟩).h ≤ (5 : ℤ) + 10) :=
  rect_and_subset ⟨⟨0, 0⟩, 10, 10⟩ ⟨⟨5, 5⟩, 10, 10⟩
    (by decide) (by decide) (by decide) (by decide) (by decide) (by decide)
    (by decide) (by decide) (by decide)

end Blit
